import Mathlib

/-!
Verification development for the crayon entity-component storage core.

The repository source under `src/src/ecs/` provides `view.rs` (the
`Fetch`/`FetchMut`/`Join` machinery).  The companion modules it imports
(`ecs::world`, `ecs::bitset`, `ecs::component`) are not present in the
source tree; their behaviour is modelled here from the specification, and
every such definition is marked `Modelled from the spec:` in its doc
comment.  Everything about `Fetch`, `FetchMut` and `Join` composition is
translated from `view.rs` directly.
-/

namespace Crayon

/-- Modelled from the spec: `Entity` — value type `{ index: u32, generation: u32 }`
(`ecs::world` is absent from src).  `index` addresses a slot in the directory
and every arena; `generation` invalidates stale handles.  Equality is by
`(index, generation)`.  Generations are modelled as unbounded naturals since
the spec's invariant is that a slot's generation strictly increases on every
free/reuse cycle. -/
structure Entity where
  index : Nat
  generation : Nat
deriving DecidableEq, Repr

/-- Modelled from the spec: one slot record of the Entity Directory,
`{ generation: u32, alive: bool }`. -/
structure Slot where
  generation : Nat
  alive : Bool
deriving DecidableEq, Repr

/-- Modelled from the spec: the Entity Directory — an ordered sequence of slot
records plus a free list of reusable indices. -/
structure EntityDirectory where
  slots : List Slot
  freelist : List Nat
deriving DecidableEq, Repr

namespace EntityDirectory

def empty : EntityDirectory := ⟨[], []⟩

/-- The slot record at index `i` (a dead generation-0 slot when out of range). -/
def slotAt (d : EntityDirectory) (i : Nat) : Slot := d.slots.getD i ⟨0, false⟩

/-- Modelled from the spec: `is_alive(e)` — index in range, generation matches,
alive flag true. -/
def is_alive (d : EntityDirectory) (e : Entity) : Bool :=
  e.index < d.slots.length && (d.slotAt e.index).alive
    && (d.slotAt e.index).generation == e.generation

/-- Modelled from the spec: `create()` — allocates from the free list if
non-empty (reusing the slot's now-incremented generation), else appends a new
slot at generation 0; marks it alive. -/
def create (d : EntityDirectory) : Entity × EntityDirectory :=
  match d.freelist with
  | i :: rest =>
      let g := (d.slotAt i).generation
      (⟨i, g⟩, ⟨d.slots.set i ⟨g, true⟩, rest⟩)
  | [] =>
      (⟨d.slots.length, 0⟩, ⟨d.slots ++ [⟨0, true⟩], []⟩)

/-- Modelled from the spec: `destroy(e)` — succeeds only if `e` is currently
alive; on success marks the slot dead, increments its generation, pushes the
index onto the free list; returns false as a no-op otherwise. -/
def destroy (d : EntityDirectory) (e : Entity) : Bool × EntityDirectory :=
  if d.is_alive e then
    (true, ⟨d.slots.set e.index ⟨(d.slotAt e.index).generation + 1, false⟩,
            e.index :: d.freelist⟩)
  else
    (false, d)

end EntityDirectory

/-- Modelled from the spec: the Signature Index — a fixed-capacity bitset with
one bit per registered component kind, supporting union/test (`ecs::bitset` is
absent from src).  Modelled functionally as the finite set of set bit
positions; the capacity bound does not bear on any claim. -/
abbrev BitSet := Finset Nat

namespace BitSetOps

/-- Modelled from the spec: `BitSet::new()` — the empty bitset. -/
def new : BitSet := ∅

/-- Modelled from the spec: a bitset with exactly the given bits set,
as in `BitSet::from(&[k])`. -/
def ofBits (l : List Nat) : BitSet := l.foldl (fun s k => insert k s) ∅

/-- Modelled from the spec: bitwise union of two bitsets. -/
def union_with (a b : BitSet) : BitSet := a ∪ b

/-- Modelled from the spec: the query test of step 3 in §4.4 — every bit of
`m` is set in `s`. -/
def submask (m s : BitSet) : Bool := decide (m ⊆ s)

end BitSetOps

/-- Modelled from the spec: a Component Arena for one component kind — a
mapping from slot index to component value (`ecs::component` is absent from
src).  Modelled as the dense-vector strategy: a growable vector of optional
values indexed by slot. -/
structure Arena (V : Type) where
  values : List (Option V)
deriving DecidableEq, Repr

namespace Arena

variable {V : Type}

def empty : Arena V := ⟨[]⟩

/-- Modelled from the spec: `get(index)` — returns the value only if present. -/
def get (a : Arena V) (i : Nat) : Option V := a.values.getD i none

/-- Modelled from the spec: `insert(index, value)` — stores/overwrites at
`index`, growing the vector as needed. -/
def insert (a : Arena V) (i : Nat) (v : V) : Arena V :=
  ⟨(a.values ++ List.replicate (i + 1 - a.values.length) none).set i (some v)⟩

/-- Modelled from the spec: `remove(index)` — removes and returns any stored
value; absent is not an error. -/
def remove (a : Arena V) (i : Nat) : Option V × Arena V :=
  (a.get i, ⟨a.values.set i none⟩)

/-- Modelled from the spec: `get_unchecked(index)` — the
caller-guaranteed-present fast path; reads the entry at `index` without the
presence check (the default value stands in for the undefined read of an
absent entry). -/
def get_unchecked [Inhabited V] (a : Arena V) (i : Nat) : V :=
  (a.values.getD i none).getD default

end Arena

/-- Modelled from the spec: the World — owns the Entity Directory, one Arena
per registered component kind (the list position is the kind's signature bit),
and the live-signature table entity index → Signature. -/
structure World (V : Type) where
  entities : EntityDirectory
  masks : List BitSet
  arenas : List (Arena V)

/-- Modelled from the spec: the `NotAlive` error of §7. -/
inductive NotAlive where
  | notAlive
deriving DecidableEq, Repr

namespace World

variable {V : Type}

/-- A fresh World with `n` registered component kinds and no entities. -/
def new (n : Nat) : World V := ⟨EntityDirectory.empty, [], List.replicate n Arena.empty⟩

/-- The signature of slot index `i` (empty when out of range). -/
def maskAt (w : World V) (i : Nat) : BitSet := w.masks.getD i ∅

/-- The arena of component kind `k` (empty when out of range). -/
def arenaAt (w : World V) (k : Nat) : Arena V := w.arenas.getD k Arena.empty

/-- Modelled from the spec: `create_entity()` — delegates to the Entity
Directory; initializes an empty Signature for the new index. -/
def create_entity (w : World V) : Entity × World V :=
  let p := w.entities.create
  (p.1, { w with
            entities := p.2,
            masks := (w.masks ++ List.replicate (p.1.index + 1 - w.masks.length) ∅).set
                       p.1.index ∅ })

/-- Modelled from the spec: `attach::<T>(e, v)` — fails with `NotAlive` if `e`
is not alive; else inserts into arena `T` and sets the signature bit for `T`.
Re-attaching overwrites. -/
def attach (w : World V) (k : Nat) (e : Entity) (v : V) : Except NotAlive (World V) :=
  if w.entities.is_alive e then
    .ok { w with
            arenas := w.arenas.set k ((w.arenaAt k).insert e.index v),
            masks := w.masks.set e.index (insert k (w.maskAt e.index)) }
  else
    .error .notAlive

/-- Modelled from the spec: `detach::<T>(e)` — removes from arena `T`, clears
the bit; returns the previous value if any; a safe no-op on a stale handle
(§7). -/
def detach (w : World V) (k : Nat) (e : Entity) : Option V × World V :=
  if w.entities.is_alive e then
    ((w.arenaAt k).get e.index,
     { w with
         arenas := w.arenas.set k ((w.arenaAt k).remove e.index).2,
         masks := w.masks.set e.index (Finset.erase (w.maskAt e.index) k) })
  else
    (none, w)

/-- Modelled from the spec: `has::<T>(e)` — signature bit test, false for a
stale or out-of-range handle (§7). -/
def has (w : World V) (k : Nat) (e : Entity) : Bool :=
  w.entities.is_alive e && decide (k ∈ w.maskAt e.index)

/-- Modelled from the spec: `destroy_entity(e)` — if alive, for every set bit
`k` in `e`'s signature remove `e`'s data from arena `k`, clear the signature,
then delegate destruction to the Entity Directory. -/
def destroy_entity (w : World V) (e : Entity) : World V :=
  if w.entities.is_alive e then
    { w with
        entities := (w.entities.destroy e).2,
        masks := w.masks.set e.index ∅,
        arenas := (List.range w.arenas.length).map
          (fun k => if k ∈ w.maskAt e.index then ((w.arenaAt k).remove e.index).2
                    else w.arenaAt k) }
  else
    w

end World

/-- From `src/src/ecs/view.rs`: `Fetch<T>` binds one arena (read-only) to the
owning World; here the arena view it holds. -/
structure Fetch (V : Type) where
  arena : Arena V

namespace Fetch

variable {V : Type}

/-- From `view.rs` (impl `ArenaGet<T> for Fetch`): `get(ent)` is
`self.arena.get(ent.index())` — the lookup uses only the slot index. -/
def get (f : Fetch V) (e : Entity) : Option V := f.arena.get e.index

/-- From `view.rs`: `get_unchecked(ent)` is
`self.arena.get_unchecked(ent.index())`. -/
def get_unchecked [Inhabited V] (f : Fetch V) (e : Entity) : V :=
  f.arena.get_unchecked e.index

end Fetch

/-- From `src/src/ecs/view.rs`: `FetchMut<T>` binds one arena (mutable) to the
owning World. -/
structure FetchMut (V : Type) where
  arena : Arena V

namespace FetchMut

variable {V : Type}

/-- From `view.rs` (impl `ArenaGet<T> for FetchMut`): `get(ent)` is
`self.arena.get(ent.index())`. -/
def get (f : FetchMut V) (e : Entity) : Option V := f.arena.get e.index

/-- From `view.rs` (impl `ArenaGetMut<T> for FetchMut`): `get_mut(ent)` is
`self.arena.get_mut(ent.index())`; modelled by the value the returned mutable
reference addresses. -/
def get_mut (f : FetchMut V) (e : Entity) : Option V := f.arena.get e.index

/-- From `view.rs`: `get_unchecked_mut(ent)` is
`self.arena.get_unchecked_mut(ent.index())`; modelled by the value the
returned mutable reference addresses. -/
def get_unchecked_mut [Inhabited V] (f : FetchMut V) (e : Entity) : V :=
  f.arena.get_unchecked e.index

end FetchMut

/-- A participant of a `Join`, as in `view.rs`: the bare entity stream
(`Entities`), a `Fetch` of component kind `k`, a `FetchMut` of component kind
`k`, or a tuple of participants (the `impl_join!` macro instantiates tuples of
2 to 9). -/
inductive JoinP where
  | entities : JoinP
  | fetch : Nat → JoinP
  | fetchMut : Nat → JoinP
  | tuple : List JoinP → JoinP

mutual

/-- From `view.rs`: the `mask()` of each `Join` impl. `Entities` reports
`BitSet::new()`; `Fetch`/`FetchMut` report
`BitSet::from(&[world.mask_index::<C>()])`; the tuple impls start from
`BitSet::new()` and fold `union_with` over the participants in order. -/
def maskP : JoinP → BitSet
  | .entities => BitSetOps.new
  | .fetch k => BitSetOps.ofBits [k]
  | .fetchMut k => BitSetOps.ofBits [k]
  | .tuple ps => maskFold BitSetOps.new ps

/-- The fold inside the tuple `mask()` of `view.rs`:
`mask = mask.union_with(p.mask())` over the participants in order. -/
def maskFold : BitSet → List JoinP → BitSet
  | m, [] => m
  | m, p :: rest => maskFold (BitSetOps.union_with m (maskP p)) rest

end

/-- One item yielded per matching entity by a `Join` iterator: `Entities`
yields the entity itself, a `Fetch`/`FetchMut` yields its component reference,
a tuple yields the tuple of its participants' items. -/
inductive Item (V : Type) where
  | ent : Entity → Item V
  | val : V → Item V
  | tup : List (Item V) → Item V

mutual

/-- From `view.rs`: the `get_unchecked` of each `Join` impl. `Entities`
returns the entity id; `Fetch`/`FetchMut` return
`arena.get_unchecked(ent.index())`; the tuple impls destructure the tuple and
apply each participant's `get_unchecked` in order. -/
def getU {V : Type} [Inhabited V] (w : World V) : JoinP → Entity → Item V
  | .entities, e => .ent e
  | .fetch k, e => .val ((w.arenaAt k).get_unchecked e.index)
  | .fetchMut k, e => .val ((w.arenaAt k).get_unchecked e.index)
  | .tuple ps, e => .tup (getUList w ps e)

/-- The participant-by-participant destructuring inside the tuple
`get_unchecked` of `view.rs`. -/
def getUList {V : Type} [Inhabited V] (w : World V) : List JoinP → Entity → List (Item V)
  | [], _ => []
  | p :: rest, e => getU w p e :: getUList w rest e

end

namespace World

variable {V : Type}

/-- Modelled from the spec: the entity-index stream of `EntitiesIter`
(`ecs::world` is absent from src) — §4.4 step 3: a stream over the directory
restricted to indices whose live signature has all query bits set, in
ascending index order. -/
def matching_entities (w : World V) (m : BitSet) : List Entity :=
  (List.range w.entities.slots.length).filterMap (fun i =>
    if (w.entities.slotAt i).alive && BitSetOps.submask m (w.maskAt i) then
      some ⟨i, (w.entities.slotAt i).generation⟩
    else
      none)

/-- From `view.rs`: `Join::join` builds `EntitiesIter::new(world, self.mask())`
and maps `get_unchecked` over it (`JoinIter::next`); modelled as the list of
items the iterator yields. -/
def joinRun [Inhabited V] (w : World V) (j : JoinP) : List (Item V) :=
  (w.matching_entities (maskP j)).map (getU w j)

end World

/-- One World operation of the public surface (§4.3). -/
inductive Op (V : Type) where
  | create : Op V
  | destroy : Entity → Op V
  | attach : Nat → Entity → V → Op V
  | detach : Nat → Entity → Op V

namespace World

variable {V : Type}

/-- Execute one operation on the World (a failed `attach` leaves the World
unchanged, as the Rust `Result` carries no state). -/
def step (w : World V) : Op V → World V
  | .create => w.create_entity.2
  | .destroy e => w.destroy_entity e
  | .attach k e v =>
      match w.attach k e v with
      | .ok w2 => w2
      | .error _ => w
  | .detach k e => (w.detach k e).2

/-- The World reached from a fresh World with `n` registered kinds by a
sequence of operations. -/
def run (n : Nat) (ops : List (Op V)) : World V :=
  ops.foldl step (World.new n)

/-- The coherence invariant of §3: the signature table is as long as the
directory, the free list holds in-range dead slots without duplicates, a
signature bit `k` is set for index `i` exactly when arena `k` holds data at
`i`, and dead slots carry the empty signature. -/
def WF (w : World V) : Prop :=
  w.masks.length = w.entities.slots.length
  ∧ (∀ i ∈ w.entities.freelist,
       i < w.entities.slots.length ∧ (w.entities.slotAt i).alive = false)
  ∧ w.entities.freelist.Nodup
  ∧ (∀ k, k < w.arenas.length →
       ∀ i, (k ∈ w.maskAt i ↔ ((w.arenaAt k).get i).isSome = true))
  ∧ (∀ i, (w.entities.slotAt i).alive = false → w.maskAt i = ∅)

end World

/-- One Entity Directory operation (§4.1). -/
inductive DirOp where
  | create : DirOp
  | destroy : Entity → DirOp

/-- Execute one directory operation, recording every entity `create` hands
out. -/
def dirStep : EntityDirectory × List Entity → DirOp → EntityDirectory × List Entity
  | (d, issued), .create => ((d.create).2, issued ++ [(d.create).1])
  | (d, issued), .destroy e => ((d.destroy e).2, issued)

/-- The directory reached from the empty directory by a sequence of
operations, together with every entity handle it ever issued. -/
def dirRun (ops : List DirOp) : EntityDirectory × List Entity :=
  ops.foldl dirStep (EntityDirectory.empty, [])

/-- The directory invariant behind generation-safe recycling: issued handles
are in range, never ahead of their slot's current generation, current only
when the slot is alive, pairwise distinct, and the free list holds in-range
dead slots without duplicates. -/
def DirInv : EntityDirectory × List Entity → Prop
  | (d, issued) =>
      (∀ e ∈ issued, e.index < d.slots.length)
      ∧ (∀ e ∈ issued, e.generation ≤ (d.slotAt e.index).generation)
      ∧ (∀ e ∈ issued,
           e.generation = (d.slotAt e.index).generation →
             (d.slotAt e.index).alive = true)
      ∧ issued.Pairwise (· ≠ ·)
      ∧ (∀ i ∈ d.freelist, i < d.slots.length ∧ (d.slotAt i).alive = false)
      ∧ d.freelist.Nodup

/-- A concrete run for the stale-handle scenario: one registered kind; entity
`(0,0)` is created, given component 0 with value 5, destroyed; the slot is
then reused by entity `(0,1)`, which is given component 0 with value 7. -/
def staleW : World Nat :=
  World.run 1
    [.create, .attach 0 ⟨0, 0⟩ 5, .destroy ⟨0, 0⟩, .create, .attach 0 ⟨0, 1⟩ 7]

/-- A concrete World for witnesses: two registered kinds; entity `(0,0)` holds
kind 0 (value 10), entity `(1,0)` holds kind 1 (value 20). -/
def smallW : World Nat :=
  World.run 2 [.create, .create, .attach 0 ⟨0, 0⟩ 10, .attach 1 ⟨1, 0⟩ 20]

/-! ### List and arena helper lemmas -/

theorem getD_set_self {α : Type} (l : List α) (i : Nat) (a d : α) (h : i < l.length) :
    (l.set i a).getD i d = a := by
  simp [List.getD, List.getElem?_set_self', List.getElem?_eq_getElem h]

theorem getD_set_ne {α : Type} (l : List α) {i j : Nat} (a : α) (d : α) (h : j ≠ i) :
    (l.set i a).getD j d = l.getD j d := by
  simp [List.getD, List.getElem?_set_ne (Ne.symm h)]

theorem getD_append_lt {α : Type} (l1 l2 : List α) (i : Nat) (d : α) (h : i < l1.length) :
    (l1 ++ l2).getD i d = l1.getD i d := by
  simp [List.getD, List.getElem?_append, h]

theorem getD_of_le {α : Type} (l : List α) (i : Nat) (d : α) (h : l.length ≤ i) :
    l.getD i d = d := by
  simp [List.getD, List.getElem?_eq_none h]

theorem getD_replicate_self {α : Type} (n m : Nat) (d : α) :
    (List.replicate n d).getD m d = d := by
  by_cases h : m < n
  · simp [List.getD, List.getElem?_replicate, h]
  · exact getD_of_le _ _ _ (by simpa [List.length_replicate] using Nat.le_of_not_lt h)

namespace Arena

variable {V : Type}

theorem get_empty (i : Nat) : (Arena.empty : Arena V).get i = none := by
  simp [Arena.empty, Arena.get, List.getD]

theorem get_insert_self (a : Arena V) (i : Nat) (v : V) :
    (a.insert i v).get i = some v := by
  unfold Arena.insert Arena.get
  exact getD_set_self _ _ _ _ (by simp [List.length_append, List.length_replicate]; omega)

theorem get_insert_ne (a : Arena V) {i j : Nat} (v : V) (h : j ≠ i) :
    (a.insert i v).get j = a.get j := by
  unfold Arena.insert Arena.get
  rw [getD_set_ne _ _ _ h]
  by_cases hj : j < a.values.length
  · exact getD_append_lt _ _ _ _ hj
  · have hj2 : a.values.length ≤ j := Nat.le_of_not_lt hj
    rw [getD_of_le _ _ _ hj2]
    by_cases hjt : j < a.values.length + (i + 1 - a.values.length)
    · have : (a.values ++ List.replicate (i + 1 - a.values.length) (none : Option V)).getD j none
          = (List.replicate (i + 1 - a.values.length) (none : Option V)).getD
              (j - a.values.length) none := by
        simp [List.getD, List.getElem?_append, Nat.not_lt.mpr hj2, hj]
      rw [this, getD_replicate_self]
    · exact getD_of_le _ _ _ (by simp [List.length_append, List.length_replicate]; omega)

theorem get_remove_self (a : Arena V) (i : Nat) : (a.remove i).2.get i = none := by
  unfold Arena.remove Arena.get
  by_cases h : i < a.values.length
  · exact getD_set_self _ _ _ _ (by simpa using h)
  · exact getD_of_le _ _ _ (by simpa using Nat.le_of_not_lt h)

theorem get_remove_ne (a : Arena V) {i j : Nat} (h : j ≠ i) :
    (a.remove i).2.get j = a.get j := by
  unfold Arena.remove Arena.get
  exact getD_set_ne _ _ _ h

theorem get_unchecked_of_get [Inhabited V] (a : Arena V) (i : Nat) (v : V)
    (h : a.get i = some v) : a.get_unchecked i = v := by
  unfold Arena.get at h
  unfold Arena.get_unchecked
  rw [h]
  rfl

end Arena

namespace EntityDirectory

/-- `is_alive` unpacked into its three conjuncts. -/
theorem is_alive_iff (d : EntityDirectory) (e : Entity) :
    d.is_alive e = true ↔
      e.index < d.slots.length ∧ (d.slotAt e.index).alive = true
        ∧ (d.slotAt e.index).generation = e.generation := by
  simp [EntityDirectory.is_alive, Bool.and_eq_true, beq_iff_eq, decide_eq_true_eq,
    and_assoc]

end EntityDirectory

/-! ### Claim theorems -/

/-- C6: `destroy` is idempotent: the first call on a live entity returns true,
marks the slot dead, increments its generation and pushes the index onto the
free list; a second call on the same handle, or any call on a dead or
out-of-range handle, returns false and leaves the directory unchanged (and,
being a total function, never panics). -/
theorem destroy_idempotent (d : EntityDirectory) (e : Entity) :
    (d.is_alive e = true →
       (d.destroy e).1 = true
       ∧ ((d.destroy e).2.slotAt e.index).alive = false
       ∧ ((d.destroy e).2.slotAt e.index).generation = e.generation + 1
       ∧ (d.destroy e).2.freelist = e.index :: d.freelist
       ∧ (d.destroy e).2.destroy e = (false, (d.destroy e).2))
    ∧ (d.is_alive e = false → d.destroy e = (false, d)) := by
  constructor
  · intro h
    obtain ⟨hlt, halive, hgen⟩ := (EntityDirectory.is_alive_iff d e).mp h
    have hslot : ((d.destroy e).2.slotAt e.index)
        = ⟨(d.slotAt e.index).generation + 1, false⟩ := by
      simp only [EntityDirectory.destroy, h, if_true]
      exact getD_set_self _ _ _ _ (by simpa using hlt)
    have hdead : (d.destroy e).2.is_alive e = false := by
      rw [Bool.eq_false_iff]
      intro hcontra
      obtain ⟨_, ha, _⟩ := (EntityDirectory.is_alive_iff _ e).mp hcontra
      rw [hslot] at ha
      exact Bool.false_ne_true ha
    refine ⟨by simp [EntityDirectory.destroy, h], by rw [hslot],
      by rw [hslot, hgen], by simp [EntityDirectory.destroy, h], ?_⟩
    generalize hX : (d.destroy e).2 = d2 at hdead ⊢
    simp [EntityDirectory.destroy, hdead]
  · intro h
    simp [EntityDirectory.destroy, h]

/-- C6 witness: a directory with one live slot; destroying entity `(0,0)`
succeeds with the specified effects and a second destroy is a rejected
no-op. -/
theorem destroy_idempotent_witness :
    ((⟨[⟨0, true⟩], []⟩ : EntityDirectory).destroy ⟨0, 0⟩).1 = true
    ∧ (((⟨[⟨0, true⟩], []⟩ : EntityDirectory).destroy ⟨0, 0⟩).2.slotAt 0).alive = false
    ∧ (((⟨[⟨0, true⟩], []⟩ : EntityDirectory).destroy ⟨0, 0⟩).2.slotAt 0).generation = 1
    ∧ ((⟨[⟨0, true⟩], []⟩ : EntityDirectory).destroy ⟨0, 0⟩).2.freelist = [0]
    ∧ ((⟨[⟨0, true⟩], []⟩ : EntityDirectory).destroy ⟨0, 0⟩).2.destroy ⟨0, 0⟩
        = (false, ((⟨[⟨0, true⟩], []⟩ : EntityDirectory).destroy ⟨0, 0⟩).2) :=
  (destroy_idempotent ⟨[⟨0, true⟩], []⟩ ⟨0, 0⟩).1 (by decide)

/-- C10: the unchecked fast path agrees with the checked path: whenever
`Fetch::get` returns `Some(v)`, `Fetch::get_unchecked` returns that same `v`,
and whenever `FetchMut::get_mut` addresses a present entry,
`FetchMut::get_unchecked_mut` addresses that same entry. -/
theorem fetch_unchecked_agrees_checked {V : Type} [Inhabited V]
    (f : Fetch V) (g : FetchMut V) (e : Entity) (v1 v2 : V) :
    (f.get e = some v1 → f.get_unchecked e = v1)
    ∧ (g.get_mut e = some v2 → g.get_unchecked_mut e = v2) := by
  constructor
  · intro h
    exact Arena.get_unchecked_of_get _ _ _ h
  · intro h
    exact Arena.get_unchecked_of_get _ _ _ h

/-- C10 witness: a one-entry arena; both the read view and the mutable view
agree between checked and unchecked access at entity `(0,0)`. -/
theorem fetch_unchecked_agrees_checked_witness :
    (Fetch.mk ⟨[some 3]⟩ : Fetch Nat).get_unchecked ⟨0, 0⟩ = 3
    ∧ (FetchMut.mk ⟨[some 4]⟩ : FetchMut Nat).get_unchecked_mut ⟨0, 0⟩ = 4 :=
  ⟨(fetch_unchecked_agrees_checked (Fetch.mk ⟨[some 3]⟩)
      (FetchMut.mk ⟨[some 4]⟩) ⟨0, 0⟩ 3 4).1 rfl,
   (fetch_unchecked_agrees_checked (Fetch.mk ⟨[some 3]⟩)
      (FetchMut.mk ⟨[some 4]⟩) ⟨0, 0⟩ 3 4).2 rfl⟩

/-- The bit `k` is never set in a signature-table entry just overwritten with
`erase m k` (whether or not the write was in range). -/
theorem not_mem_getD_set_erase (l : List BitSet) (i : Nat) (m : BitSet) (k : Nat) :
    k ∉ (l.set i (Finset.erase m k)).getD i ∅ := by
  by_cases h : i < l.length
  · rw [getD_set_self _ _ _ _ h]
    exact Finset.not_mem_erase _ _
  · rw [getD_of_le _ _ _ (by simpa using Nat.le_of_not_lt h)]
    exact Finset.not_mem_empty _

/-- After `detach k e`, `has k e` is false (unconditionally: a stale handle
already fails the liveness gate). -/
theorem has_detach_self {V : Type} (w : World V) (k : Nat) (e : Entity) :
    (w.detach k e).2.has k e = false := by
  by_cases h : w.entities.is_alive e = true
  · have hnot := not_mem_getD_set_erase w.masks e.index (w.maskAt e.index) k
    simp only [World.maskAt] at hnot
    simp only [World.detach, h, if_true, World.has, World.maskAt]
    rw [decide_eq_false hnot, Bool.and_false]
  · simp [World.detach, World.has, h]


/-- C7: for a live entity `e` and a registered kind `k`, `attach k e v`
succeeds and an immediate `detach k e` returns `Some v`; right after the
detach, `has k e` is false. -/
theorem attach_detach_roundtrip {V : Type} (w : World V) (k : Nat) (e : Entity)
    (v : V) (halive : w.entities.is_alive e = true) (hk : k < w.arenas.length) :
    ∃ w2, w.attach k e v = .ok w2
      ∧ (w2.detach k e).1 = some v
      ∧ ((w2.detach k e).2.has k e) = false := by
  refine ⟨{ w with
      arenas := w.arenas.set k ((w.arenaAt k).insert e.index v),
      masks := w.masks.set e.index (insert k (w.maskAt e.index)) }, ?_, ?_, ?_⟩
  · simp [World.attach, halive]
  · have harena : (World.arenaAt
        { w with
            arenas := w.arenas.set k ((w.arenaAt k).insert e.index v),
            masks := w.masks.set e.index (insert k (w.maskAt e.index)) } k)
        = (w.arenaAt k).insert e.index v := by
      simp only [World.arenaAt]
      exact getD_set_self _ _ _ _ (by simpa using hk)
    simp [World.detach, World.attach, halive, harena, Arena.get_insert_self]
  · exact has_detach_self _ k e

/-- C7 witness: in the concrete two-kind World, attaching value 99 of kind 0
to the live entity `(0,0)` and detaching it returns `some 99` and leaves
`has` false. -/
theorem attach_detach_roundtrip_witness :
    ∃ w2, smallW.attach 0 ⟨0, 0⟩ 99 = .ok w2
      ∧ (w2.detach 0 ⟨0, 0⟩).1 = some 99
      ∧ ((w2.detach 0 ⟨0, 0⟩).2.has 0 ⟨0, 0⟩) = false :=
  attach_detach_roundtrip smallW 0 ⟨0, 0⟩ 99 (by decide) (by decide)

/-- Unfolding the participant fold of the tuple `mask()`: a bit is in the
fold's result iff it is in the accumulator or in some participant's mask. -/
theorem mem_maskFold (l : List JoinP) :
    ∀ (m : BitSet) (b : Nat),
      b ∈ maskFold m l ↔ b ∈ m ∨ ∃ p ∈ l, b ∈ maskP p := by
  induction l with
  | nil => intro m b; simp [maskFold]
  | cons p rest ih =>
      intro m b
      rw [show maskFold m (p :: rest) = maskFold (BitSetOps.union_with m (maskP p)) rest
        by simp [maskFold]]
      rw [ih]
      simp [BitSetOps.union_with, Finset.mem_union, or_assoc]

/-- C4: for a composite (tuple) Join of 2 to 9 participants, the query
signature computed by `mask()` is the bitwise union of the participants'
masks, and the bare entity stream contributes the empty bitset, which
restricts nothing. -/
theorem tuple_mask_is_union (ps : List JoinP) (_h2 : 2 ≤ ps.length)
    (_h9 : ps.length ≤ 9) (b : Nat) :
    (b ∈ maskP (.tuple ps) ↔ ∃ p ∈ ps, b ∈ maskP p)
    ∧ maskP .entities = ∅
    ∧ (∀ s : BitSet, maskP .entities ⊆ s) := by
  refine ⟨?_, by simp [maskP, BitSetOps.new], fun s => by simp [maskP, BitSetOps.new]⟩
  rw [show maskP (.tuple ps) = maskFold BitSetOps.new ps by simp [maskP]]
  rw [mem_maskFold]
  simp [BitSetOps.new]

/-- C4 witness: the pair Join over kinds 0 and 1 has exactly the bits of its
participants, and the entity stream's mask is empty. -/
theorem tuple_mask_is_union_witness :
    ((0 : Nat) ∈ maskP (.tuple [.fetch 0, .fetch 1]) ↔
       ∃ p ∈ [JoinP.fetch 0, JoinP.fetch 1], (0 : Nat) ∈ maskP p)
    ∧ maskP .entities = ∅
    ∧ (∀ s : BitSet, maskP .entities ⊆ s) :=
  tuple_mask_is_union [.fetch 0, .fetch 1] (by decide) (by decide) 0

/-- The participant-wise destructuring equals an ordered `map`. -/
theorem getUList_eq_map {V : Type} [Inhabited V] (w : World V) (ps : List JoinP)
    (e : Entity) : getUList w ps e = ps.map (fun p => getU w p e) := by
  induction ps with
  | nil => simp [getUList]
  | cons p rest ih => rw [show getUList w (p :: rest) e = getU w p e :: getUList w rest e
      by simp [getUList]]; rw [ih]; simp

/-- C8: the tuple Join's output preserves participant order: for 2 to 9
participants, the yielded tuple has one element per participant, and its
`i`-th element is the `i`-th participant's `get_unchecked` for the entity. -/
theorem tuple_join_preserves_order {V : Type} [Inhabited V] (w : World V)
    (ps : List JoinP) (e : Entity) (_h2 : 2 ≤ ps.length) (_h9 : ps.length ≤ 9) :
    ∃ items, getU w (.tuple ps) e = .tup items
      ∧ items.length = ps.length
      ∧ ∀ i : Nat, items[i]? = (ps[i]?).map (fun p => getU w p e) := by
  refine ⟨ps.map (fun p => getU w p e), ?_, by simp, fun i => by simp⟩
  rw [show getU w (.tuple ps) e = .tup (getUList w ps e) by simp [getU]]
  rw [getUList_eq_map]

/-- C8 witness: in the concrete two-kind World, the pair Join over
(`Fetch 0`, `FetchMut 1`) yields a two-element tuple in participant order at
entity `(0,0)`. -/
theorem tuple_join_preserves_order_witness :
    ∃ items, getU smallW (.tuple [.fetch 0, .fetchMut 1]) ⟨0, 0⟩ = .tup items
      ∧ items.length = [JoinP.fetch 0, JoinP.fetchMut 1].length
      ∧ ∀ i : Nat, items[i]? = ([JoinP.fetch 0, JoinP.fetchMut 1][i]?).map
          (fun p => getU smallW p ⟨0, 0⟩) :=
  tuple_join_preserves_order smallW [.fetch 0, .fetchMut 1] ⟨0, 0⟩
    (by decide) (by decide)

/-- Membership in the entity stream: an entity is scanned exactly when it is
alive (index in range, generation current) and its signature has every query
bit. -/
theorem mem_matching_entities {V : Type} (w : World V) (m : BitSet) (e : Entity) :
    e ∈ w.matching_entities m ↔
      (w.entities.is_alive e = true ∧ m ⊆ w.maskAt e.index) := by
  unfold World.matching_entities
  rw [List.mem_filterMap]
  constructor
  · rintro ⟨i, hi, hf⟩
    rw [List.mem_range] at hi
    by_cases hc : ((w.entities.slotAt i).alive
        && BitSetOps.submask m (w.maskAt i)) = true
    · rw [if_pos hc] at hf
      rw [Bool.and_eq_true] at hc
      obtain ⟨ha, hs⟩ := hc
      obtain rfl : Entity.mk i (w.entities.slotAt i).generation = e :=
        Option.some_injective _ hf
      refine ⟨(EntityDirectory.is_alive_iff _ _).mpr ⟨hi, ha, rfl⟩, ?_⟩
      simpa [BitSetOps.submask] using hs
    · rw [if_neg hc] at hf
      simp at hf
  · rintro ⟨ha, hsub⟩
    obtain ⟨hlt, halive, hgen⟩ := (EntityDirectory.is_alive_iff _ _).mp ha
    refine ⟨e.index, List.mem_range.mpr hlt, ?_⟩
    rw [if_pos (by simp [halive, BitSetOps.submask, hsub])]
    rw [hgen]

/-- The entity stream is in strictly ascending index order. -/
theorem sorted_matching_entities {V : Type} (w : World V) (m : BitSet) :
    (w.matching_entities m).Pairwise (fun x y => x.index < y.index) := by
  unfold World.matching_entities
  refine List.Pairwise.filterMap _ ?_ (List.pairwise_lt_range _)
  intro i j hij x hx y hy
  have hxi : x.index = i := by
    by_cases hc : ((w.entities.slotAt i).alive
        && BitSetOps.submask m (w.maskAt i)) = true
    · rw [if_pos hc] at hx
      cases hx
      rfl
    · rw [if_neg hc] at hx
      cases hx
  have hyj : y.index = j := by
    by_cases hc : ((w.entities.slotAt j).alive
        && BitSetOps.submask m (w.maskAt j)) = true
    · rw [if_pos hc] at hy
      cases hy
      rfl
    · rw [if_neg hc] at hy
      cases hy
  rw [hxi, hyj]
  exact hij

/-- C2: with no mutation during iteration (the model is pure), a Join over the
Fetch values of kinds (a, b) scans exactly the live entities whose signatures
contain both kinds, in strictly ascending index order (hence each exactly
once), and a Join over a single kind `a` scans exactly the live entities
holding `a`, in strictly ascending index order. -/
theorem join_yields_exactly_matching {V : Type} (w : World V) (a b : Nat) :
    (∀ e, e ∈ w.matching_entities (maskP (.tuple [.fetch a, .fetch b])) ↔
       (w.entities.is_alive e = true
         ∧ a ∈ w.maskAt e.index ∧ b ∈ w.maskAt e.index))
    ∧ (w.matching_entities (maskP (.tuple [.fetch a, .fetch b]))).Pairwise
        (fun x y => x.index < y.index)
    ∧ (∀ e, e ∈ w.matching_entities (maskP (.fetch a)) ↔
       (w.entities.is_alive e = true ∧ a ∈ w.maskAt e.index))
    ∧ (w.matching_entities (maskP (.fetch a))).Pairwise
        (fun x y => x.index < y.index) := by
  have hm2 : ∀ s : BitSet,
      maskP (.tuple [.fetch a, .fetch b]) ⊆ s ↔ (a ∈ s ∧ b ∈ s) := by
    intro s
    rw [show maskP (.tuple [.fetch a, .fetch b])
        = maskFold BitSetOps.new [.fetch a, .fetch b] by simp [maskP]]
    simp [maskFold, maskP, BitSetOps.new, BitSetOps.union_with, BitSetOps.ofBits,
      Finset.union_subset_iff, Finset.insert_subset_iff]
  have hm1 : ∀ s : BitSet, maskP (.fetch a) ⊆ s ↔ a ∈ s := by
    intro s
    simp [maskP, BitSetOps.ofBits, Finset.insert_subset_iff]
  refine ⟨?_, sorted_matching_entities w _, ?_, sorted_matching_entities w _⟩
  · intro e
    rw [mem_matching_entities, hm2]
  · intro e
    rw [mem_matching_entities, hm1]

/-- C9: Join construction has no failure path: `joinRun` is a total function
that always produces the mapped scan of the entity stream, and when no live
entity's signature contains all query bits the iterator yields nothing. -/
theorem join_empty_when_no_match {V : Type} [Inhabited V] (w : World V)
    (j : JoinP)
    (h : ∀ i < w.entities.slots.length,
        (w.entities.slotAt i).alive = true → ¬ maskP j ⊆ w.maskAt i) :
    w.joinRun j = []
    ∧ w.joinRun j = (w.matching_entities (maskP j)).map (getU w j) := by
  refine ⟨?_, rfl⟩
  unfold World.joinRun
  have hnil : w.matching_entities (maskP j) = [] := by
    unfold World.matching_entities
    rw [List.filterMap_eq_nil_iff]
    intro i hi
    rw [List.mem_range] at hi
    by_cases ha : (w.entities.slotAt i).alive = true
    · have hn := h i hi ha
      simp [ha, BitSetOps.submask, hn]
    · rw [Bool.not_eq_true] at ha
      simp [ha]
  rw [hnil]
  rfl

/-- C9 witness: in the concrete two-kind World no entity holds both kinds, so
the pair Join yields nothing — a valid, non-error outcome. -/
theorem join_empty_when_no_match_witness :
    smallW.joinRun (.tuple [.fetch 0, .fetch 1]) = []
    ∧ smallW.joinRun (.tuple [.fetch 0, .fetch 1])
        = (smallW.matching_entities (maskP (.tuple [.fetch 0, .fetch 1]))).map
            (getU smallW (.tuple [.fetch 0, .fetch 1])) :=
  join_empty_when_no_match smallW (.tuple [.fetch 0, .fetch 1]) (by decide)

/-- C3 counterexample: in `staleW` the handle `(0,0)` is stale (destroyed, its
slot reused by `(0,1)` which holds value 7 of kind 0), yet `Fetch::get` with
the stale handle returns `some 7` — the component data of the entity now
occupying the slot — because `view.rs` looks up by `ent.index()` alone.  This
refutes the claim that every lookup through the public surface returns absent
for stale handles. -/
theorem stale_fetch_counterexample :
    (Fetch.mk (staleW.arenaAt 0)).get ⟨0, 0⟩ = some 7
    ∧ staleW.entities.is_alive ⟨0, 0⟩ = false := by
  decide

/-- C3 (amended): for a stale handle, the World surface degrades to no-ops —
`has` returns false and `detach` returns `None` leaving the World unchanged —
and no lookup panics; but `Fetch`/`FetchMut` `get` perform an index-only arena
lookup, so a stale handle whose slot has been reused and re-populated resolves
to the current occupant's data rather than absent. -/
theorem stale_lookup_amended {V : Type} (w : World V) (k : Nat) (e : Entity)
    (h : w.entities.is_alive e = false) :
    w.has k e = false
    ∧ w.detach k e = (none, w)
    ∧ (∀ f : Fetch V, f.get e = f.arena.get e.index)
    ∧ (∀ g : FetchMut V, g.get e = g.arena.get e.index) := by
  refine ⟨?_, ?_, fun f => rfl, fun g => rfl⟩
  · simp [World.has, h]
  · simp [World.detach, h]

/-- C3 witness: the stale handle `(0,0)` of `staleW` — `has` is false and
`detach` is a no-op returning `None`. -/
theorem stale_lookup_amended_witness :
    staleW.has 0 ⟨0, 0⟩ = false
    ∧ staleW.detach 0 ⟨0, 0⟩ = (none, staleW)
    ∧ (∀ f : Fetch Nat, f.get ⟨0, 0⟩ = f.arena.get 0)
    ∧ (∀ g : FetchMut Nat, g.get ⟨0, 0⟩ = g.arena.get 0) :=
  stale_lookup_amended staleW 0 ⟨0, 0⟩ (by decide)

/-- A fresh World satisfies the coherence invariant. -/
theorem WF_new {V : Type} (n : Nat) : (World.new n : World V).WF := by
  refine ⟨rfl, ?_, List.nodup_nil, ?_, ?_⟩
  · intro i hi
    simp [World.new, EntityDirectory.empty] at hi
  · intro k hk i
    have ha : (List.replicate n (Arena.empty : Arena V)).getD k Arena.empty
        = Arena.empty := getD_replicate_self _ _ _
    simp [World.new, World.maskAt, World.arenaAt, ha, Arena.get_empty, List.getD]
  · intro i _
    simp [World.new, World.maskAt, List.getD]

/-- `attach` preserves the coherence invariant. -/
theorem WF_attach {V : Type} (w : World V) (k : Nat) (e : Entity) (v : V)
    (h : w.WF) :
    (match w.attach k e v with | .ok w2 => w2 | .error _ => w).WF := by
  by_cases ha : w.entities.is_alive e = true
  · obtain ⟨h1, h2, h3, h4, h5⟩ := h
    obtain ⟨hlt, halive, hgen⟩ := (EntityDirectory.is_alive_iff _ _).mp ha
    have hmlt : e.index < w.masks.length := h1 ▸ hlt
    simp only [World.attach, ha, if_true]
    refine ⟨by simpa using h1, h2, h3, ?_, ?_⟩
    · intro k2 hk2 i
      simp only [List.length_set] at hk2
      by_cases hik : i = e.index
      · subst hik
        have hmask : (World.maskAt
            { w with
                arenas := w.arenas.set k ((w.arenaAt k).insert e.index v),
                masks := w.masks.set e.index (insert k (w.maskAt e.index)) } e.index)
            = insert k (w.maskAt e.index) := getD_set_self _ _ _ _ hmlt
        rw [hmask]
        by_cases hk2k : k2 = k
        · subst hk2k
          have harena : (World.arenaAt
              { w with
                  arenas := w.arenas.set k2 ((w.arenaAt k2).insert e.index v),
                  masks := w.masks.set e.index (insert k2 (w.maskAt e.index)) } k2)
              = (w.arenaAt k2).insert e.index v := getD_set_self _ _ _ _ hk2
          rw [harena, Arena.get_insert_self]
          simp
        · have harena : (World.arenaAt
              { w with
                  arenas := w.arenas.set k ((w.arenaAt k).insert e.index v),
                  masks := w.masks.set e.index (insert k (w.maskAt e.index)) } k2)
              = w.arenaAt k2 := getD_set_ne _ _ _ hk2k
          rw [harena, Finset.mem_insert]
          rw [← h4 k2 hk2 e.index]
          simp [hk2k]
      · have hmask : (World.maskAt
            { w with
                arenas := w.arenas.set k ((w.arenaAt k).insert e.index v),
                masks := w.masks.set e.index (insert k (w.maskAt e.index)) } i)
            = w.maskAt i := getD_set_ne _ _ _ hik
        rw [hmask]
        by_cases hk2k : k2 = k
        · subst hk2k
          have harena : (World.arenaAt
              { w with
                  arenas := w.arenas.set k2 ((w.arenaAt k2).insert e.index v),
                  masks := w.masks.set e.index (insert k2 (w.maskAt e.index)) } k2)
              = (w.arenaAt k2).insert e.index v := getD_set_self _ _ _ _ hk2
          rw [harena, Arena.get_insert_ne _ _ hik]
          exact h4 k2 hk2 i
        · have harena : (World.arenaAt
              { w with
                  arenas := w.arenas.set k ((w.arenaAt k).insert e.index v),
                  masks := w.masks.set e.index (insert k (w.maskAt e.index)) } k2)
              = w.arenaAt k2 := getD_set_ne _ _ _ hk2k
          rw [harena]
          exact h4 k2 hk2 i
    · intro i hdead
      by_cases hik : i = e.index
      · subst hik
        exact absurd hdead (by simp [halive])
      · have hmask : (World.maskAt
            { w with
                arenas := w.arenas.set k ((w.arenaAt k).insert e.index v),
                masks := w.masks.set e.index (insert k (w.maskAt e.index)) } i)
            = w.maskAt i := getD_set_ne _ _ _ hik
        rw [hmask]
        exact h5 i hdead
  · simp only [World.attach, ha, if_false]
    simpa using h

/-- `detach` preserves the coherence invariant. -/
theorem WF_detach {V : Type} (w : World V) (k : Nat) (e : Entity) (h : w.WF) :
    (w.detach k e).2.WF := by
  by_cases ha : w.entities.is_alive e = true
  · obtain ⟨h1, h2, h3, h4, h5⟩ := h
    obtain ⟨hlt, halive, hgen⟩ := (EntityDirectory.is_alive_iff _ _).mp ha
    have hmlt : e.index < w.masks.length := h1 ▸ hlt
    simp only [World.detach, ha, if_true]
    refine ⟨by simpa using h1, h2, h3, ?_, ?_⟩
    · intro k2 hk2 i
      simp only [List.length_set] at hk2
      by_cases hik : i = e.index
      · subst hik
        have hmask : (World.maskAt
            { w with
                arenas := w.arenas.set k ((w.arenaAt k).remove e.index).2,
                masks := w.masks.set e.index (Finset.erase (w.maskAt e.index) k) }
              e.index)
            = Finset.erase (w.maskAt e.index) k := getD_set_self _ _ _ _ hmlt
        rw [hmask]
        by_cases hk2k : k2 = k
        · subst hk2k
          have harena : (World.arenaAt
              { w with
                  arenas := w.arenas.set k2 ((w.arenaAt k2).remove e.index).2,
                  masks := w.masks.set e.index (Finset.erase (w.maskAt e.index) k2) }
                k2)
              = ((w.arenaAt k2).remove e.index).2 := getD_set_self _ _ _ _ hk2
          rw [harena, Arena.get_remove_self]
          simp
        · have harena : (World.arenaAt
              { w with
                  arenas := w.arenas.set k ((w.arenaAt k).remove e.index).2,
                  masks := w.masks.set e.index (Finset.erase (w.maskAt e.index) k) }
                k2)
              = w.arenaAt k2 := getD_set_ne _ _ _ hk2k
          rw [harena, Finset.mem_erase]
          rw [← h4 k2 hk2 e.index]
          simp [hk2k]
      · have hmask : (World.maskAt
            { w with
                arenas := w.arenas.set k ((w.arenaAt k).remove e.index).2,
                masks := w.masks.set e.index (Finset.erase (w.maskAt e.index) k) } i)
            = w.maskAt i := getD_set_ne _ _ _ hik
        rw [hmask]
        by_cases hk2k : k2 = k
        · subst hk2k
          have harena : (World.arenaAt
              { w with
                  arenas := w.arenas.set k2 ((w.arenaAt k2).remove e.index).2,
                  masks := w.masks.set e.index (Finset.erase (w.maskAt e.index) k2) }
                k2)
              = ((w.arenaAt k2).remove e.index).2 := getD_set_self _ _ _ _ hk2
          rw [harena, Arena.get_remove_ne _ hik]
          exact h4 k2 hk2 i
        · have harena : (World.arenaAt
              { w with
                  arenas := w.arenas.set k ((w.arenaAt k).remove e.index).2,
                  masks := w.masks.set e.index (Finset.erase (w.maskAt e.index) k) }
                k2)
              = w.arenaAt k2 := getD_set_ne _ _ _ hk2k
          rw [harena]
          exact h4 k2 hk2 i
    · intro i hdead
      by_cases hik : i = e.index
      · subst hik
        exact absurd hdead (by simp [halive])
      · have hmask : (World.maskAt
            { w with
                arenas := w.arenas.set k ((w.arenaAt k).remove e.index).2,
                masks := w.masks.set e.index (Finset.erase (w.maskAt e.index) k) } i)
            = w.maskAt i := getD_set_ne _ _ _ hik
        rw [hmask]
        exact h5 i hdead
  · simp only [World.detach, ha, if_false]
    exact h

theorem getD_append_singleton {α : Type} (l : List α) (a d : α) :
    (l ++ [a]).getD l.length d = a := by
  simp [List.getD, List.getElem?_append_right (Nat.le_refl _)]

/-- `create_entity` preserves the coherence invariant. -/
theorem WF_create {V : Type} (w : World V) (h : w.WF) : w.create_entity.2.WF := by
  obtain ⟨h1, h2, h3, h4, h5⟩ := h
  rcases hf : w.entities.freelist with _ | ⟨i0, rest⟩
  · -- fresh slot appended at the end
    have hrep : w.entities.slots.length + 1 - w.masks.length = 1 := by omega
    simp only [World.create_entity, EntityDirectory.create, hf, hrep,
      List.replicate_one]
    have hmlen : (w.masks ++ [(∅ : BitSet)]).length
        = w.entities.slots.length + 1 := by simp [h1]
    refine ⟨?_, ?_, List.nodup_nil, ?_, ?_⟩
    · simp [h1]
    · intro i hi
      simp at hi
    · intro k2 hk2 i
      simp only [World.arenaAt, World.maskAt]
      rcases Nat.lt_trichotomy i w.entities.slots.length with hilt | hieq | higt
      · rw [getD_set_ne _ _ _ (Nat.ne_of_lt hilt),
          getD_append_lt _ _ _ _ (h1 ▸ hilt)]
        have hthis := h4 k2 hk2 i
        simp only [World.arenaAt, World.maskAt] at hthis
        exact hthis
      · rw [hieq, getD_set_self _ _ _ _ (by rw [hmlen]; omega)]
        have hold : w.masks.getD w.entities.slots.length ∅ = ∅ :=
          getD_of_le _ _ _ (by omega)
        have hthis := h4 k2 hk2 w.entities.slots.length
        simp only [World.arenaAt, World.maskAt, hold] at hthis
        exact hthis
      · rw [getD_set_ne _ _ _ (Nat.ne_of_gt higt),
          getD_of_le _ _ _ (by rw [hmlen]; omega)]
        have hold : w.masks.getD i ∅ = ∅ := getD_of_le _ _ _ (by omega)
        have hthis := h4 k2 hk2 i
        simp only [World.arenaAt, World.maskAt, hold] at hthis
        exact hthis
    · intro i hdead
      simp only [EntityDirectory.slotAt] at hdead
      simp only [World.maskAt]
      rcases Nat.lt_trichotomy i w.entities.slots.length with hilt | hieq | higt
      · rw [getD_append_lt _ _ _ _ hilt] at hdead
        have hthis := h5 i (by simpa [EntityDirectory.slotAt] using hdead)
        simp only [World.maskAt] at hthis
        rw [getD_set_ne _ _ _ (Nat.ne_of_lt hilt),
          getD_append_lt _ _ _ _ (h1 ▸ hilt)]
        exact hthis
      · rw [hieq, getD_append_singleton] at hdead
        simp at hdead
      · rw [getD_set_ne _ _ _ (Nat.ne_of_gt higt),
          getD_of_le _ _ _ (by rw [hmlen]; omega)]
  · -- slot reused from the free list
    have hi0 := h2 i0 (by rw [hf]; exact List.mem_cons_self _ _)
    obtain ⟨hi0lt, hi0dead⟩ := hi0
    have hi0m : i0 < w.masks.length := h1 ▸ hi0lt
    have hrep : i0 + 1 - w.masks.length = 0 := by omega
    simp only [World.create_entity, EntityDirectory.create, hf, hrep,
      List.replicate_zero, List.append_nil]
    have hnodup := h3
    rw [hf, List.nodup_cons] at hnodup
    refine ⟨?_, ?_, hnodup.2, ?_, ?_⟩
    · simp [h1]
    · intro j hj
      have hjmem : j ∈ w.entities.freelist := by
        rw [hf]
        exact List.mem_cons_of_mem _ hj
      obtain ⟨hjlt, hjdead⟩ := h2 j hjmem
      have hji : j ≠ i0 := fun hji => hnodup.1 (hji ▸ hj)
      refine ⟨by simpa using hjlt, ?_⟩
      simp only [EntityDirectory.slotAt]
      rw [getD_set_ne _ _ _ hji]
      simpa [EntityDirectory.slotAt] using hjdead
    · intro k2 hk2 i
      simp only [World.arenaAt, World.maskAt]
      by_cases hii : i = i0
      · rw [hii, getD_set_self _ _ _ _ hi0m]
        have hmask0 : w.maskAt i0 = ∅ := h5 i0 hi0dead
        simp only [World.maskAt] at hmask0
        have hthis := h4 k2 hk2 i0
        simp only [World.arenaAt, World.maskAt, hmask0] at hthis
        exact hthis
      · rw [getD_set_ne _ _ _ hii]
        have hthis := h4 k2 hk2 i
        simp only [World.arenaAt, World.maskAt] at hthis
        exact hthis
    · intro i hdead
      simp only [EntityDirectory.slotAt] at hdead
      by_cases hii : i = i0
      · rw [hii, getD_set_self _ _ _ _ hi0lt] at hdead
        simp at hdead
      · rw [getD_set_ne _ _ _ hii] at hdead
        have hthis := h5 i (by simpa [EntityDirectory.slotAt] using hdead)
        simp only [World.maskAt] at hthis
        simp only [World.maskAt]
        rw [getD_set_ne _ _ _ hii]
        exact hthis

theorem getD_range_map_arena {V : Type} (n : Nat) (f : Nat → Arena V) (k : Nat)
    (hk : k < n) : ((List.range n).map f).getD k Arena.empty = f k := by
  rw [List.getD_eq_getElem _ _ (by simp [hk])]
  simp

/-- `destroy_entity` preserves the coherence invariant. -/
theorem WF_destroy {V : Type} (w : World V) (e : Entity) (h : w.WF) :
    (w.destroy_entity e).WF := by
  by_cases ha : w.entities.is_alive e = true
  · obtain ⟨h1, h2, h3, h4, h5⟩ := h
    obtain ⟨hlt, halive, hgen⟩ := (EntityDirectory.is_alive_iff _ _).mp ha
    have hmlt : e.index < w.masks.length := h1 ▸ hlt
    have hnotfree : e.index ∉ w.entities.freelist := fun hmem => by
      obtain ⟨_, hdead⟩ := h2 e.index hmem
      rw [halive] at hdead
      simp at hdead
    simp only [World.destroy_entity, ha, if_true, EntityDirectory.destroy]
    refine ⟨?_, ?_, ?_, ?_, ?_⟩
    · simp [h1]
    · intro j hj
      rcases List.mem_cons.mp hj with hje | hjf
      · subst hje
        refine ⟨by simpa using hlt, ?_⟩
        simp only [EntityDirectory.slotAt]
        rw [getD_set_self _ _ _ _ hlt]
      · obtain ⟨hjlt, hjdead⟩ := h2 j hjf
        have hji : j ≠ e.index := fun hji => hnotfree (hji ▸ hjf)
        refine ⟨by simpa using hjlt, ?_⟩
        simp only [EntityDirectory.slotAt]
        rw [getD_set_ne _ _ _ hji]
        simpa [EntityDirectory.slotAt] using hjdead
    · exact List.nodup_cons.mpr ⟨hnotfree, h3⟩
    · intro k2 hk2 i
      simp only [List.length_map, List.length_range] at hk2
      simp only [World.arenaAt, World.maskAt]
      have harena : ((List.range w.arenas.length).map
          (fun k => if k ∈ w.masks.getD e.index ∅
                    then ((w.arenas.getD k Arena.empty).remove e.index).2
                    else w.arenas.getD k Arena.empty)).getD k2 Arena.empty
          = if k2 ∈ w.masks.getD e.index ∅
            then ((w.arenas.getD k2 Arena.empty).remove e.index).2
            else w.arenas.getD k2 Arena.empty := getD_range_map_arena _ _ _ hk2
      rw [harena]
      have hthis := h4 k2 hk2 i
      simp only [World.arenaAt, World.maskAt] at hthis
      by_cases hii : i = e.index
      · subst hii
        rw [getD_set_self _ _ _ _ hmlt]
        simp only [Finset.not_mem_empty, false_iff]
        by_cases hk2m : k2 ∈ w.masks.getD e.index ∅
        · rw [if_pos hk2m, Arena.get_remove_self]
          simp
        · rw [if_neg hk2m]
          exact fun hs => hk2m (hthis.mpr hs)
      · rw [getD_set_ne _ _ _ hii]
        by_cases hk2m : k2 ∈ w.masks.getD e.index ∅
        · rw [if_pos hk2m, Arena.get_remove_ne _ hii]
          exact hthis
        · rw [if_neg hk2m]
          exact hthis
    · intro i hdead
      simp only [World.maskAt]
      by_cases hii : i = e.index
      · rw [hii, getD_set_self _ _ _ _ hmlt]
      · rw [getD_set_ne _ _ _ hii]
        simp only [EntityDirectory.slotAt] at hdead
        rw [getD_set_ne _ _ _ hii] at hdead
        have hthis := h5 i (by simpa [EntityDirectory.slotAt] using hdead)
        simpa [World.maskAt] using hthis
  · simp only [World.destroy_entity, ha, if_false]
    exact h

/-- Every operation preserves the coherence invariant. -/
theorem WF_step {V : Type} (w : World V) (op : Op V) (h : w.WF) :
    (w.step op).WF := by
  cases op with
  | create => exact WF_create w h
  | destroy e => exact WF_destroy w e h
  | attach k e v => exact WF_attach w k e v h
  | detach k e => exact WF_detach w k e h

/-- Every World reachable from a fresh one satisfies the coherence
invariant. -/
theorem WF_run {V : Type} (n : Nat) (ops : List (Op V)) :
    (World.run n ops).WF := by
  suffices hgen : ∀ w : World V, w.WF → (ops.foldl World.step w).WF from
    hgen _ (WF_new n)
  induction ops with
  | nil => exact fun w h => h
  | cons op rest ih =>
      intro w h
      exact ih _ (WF_step w op h)

/-- C1: at every point during any sequence of World operations, for every live
entity `e` and every registered component kind `k`, `has k e` is true iff the
arena for `k` holds data at `e`'s slot index. -/
theorem has_iff_arena_holds {V : Type} (n : Nat) (ops : List (Op V)) (e : Entity)
    (k : Nat) (halive : (World.run n ops).entities.is_alive e = true)
    (hk : k < (World.run n ops).arenas.length) :
    ((World.run n ops).has k e = true ↔
      (((World.run n ops).arenaAt k).get e.index).isSome = true) := by
  obtain ⟨_, _, _, h4, _⟩ := WF_run n ops
  rw [World.has, halive, Bool.true_and, decide_eq_true_eq]
  exact h4 k hk e.index

/-- C1 witness: after creating an entity and attaching kind 0, `has` agrees
with a direct arena probe. -/
theorem has_iff_arena_holds_witness :
    ((World.run 1 [Op.create, Op.attach 0 ⟨0, 0⟩ (5 : Nat)]).has 0 ⟨0, 0⟩ = true ↔
      (((World.run 1 [Op.create, Op.attach 0 ⟨0, 0⟩ (5 : Nat)]).arenaAt 0).get
        0).isSome = true) :=
  has_iff_arena_holds 1 [Op.create, Op.attach 0 ⟨0, 0⟩ 5] ⟨0, 0⟩ 0
    (by decide) (by decide)

/-- Every directory operation preserves the directory invariant. -/
theorem DirInv_step (d : EntityDirectory) (issued : List Entity) (op : DirOp)
    (h : DirInv (d, issued)) : DirInv (dirStep (d, issued) op) := by
  obtain ⟨h1, h2, h3, h4, h5, h6⟩ := h
  cases op with
  | destroy e =>
      by_cases ha : d.is_alive e = true
      · obtain ⟨hlt, halive, hgen⟩ := (EntityDirectory.is_alive_iff _ _).mp ha
        have hnotfree : e.index ∉ d.freelist := fun hmem => by
          obtain ⟨_, hdead⟩ := h5 e.index hmem
          rw [halive] at hdead
          simp at hdead
        simp only [dirStep, EntityDirectory.destroy, ha, if_true]
        refine ⟨?_, ?_, ?_, h4, ?_, ?_⟩
        · intro f hf
          simpa using h1 f hf
        · intro f hf
          simp only [EntityDirectory.slotAt]
          by_cases hfi : f.index = e.index
          · rw [hfi, getD_set_self _ _ _ _ hlt]
            have hle := h2 f hf
            simp only [EntityDirectory.slotAt, hfi] at hle
            exact Nat.le_succ_of_le hle
          · rw [getD_set_ne _ _ _ hfi]
            exact h2 f hf
        · intro f hf hfgen
          simp only [EntityDirectory.slotAt] at hfgen
          by_cases hfi : f.index = e.index
          · rw [hfi, getD_set_self _ _ _ _ hlt] at hfgen
            have hle := h2 f hf
            simp only [EntityDirectory.slotAt, hfi] at hle
            have hfgen2 : f.generation
                = (d.slots.getD e.index ⟨0, false⟩).generation + 1 := hfgen
            exact absurd hfgen2 (by omega)
          · rw [getD_set_ne _ _ _ hfi] at hfgen
            have := h3 f hf hfgen
            simp only [EntityDirectory.slotAt]
            rw [getD_set_ne _ _ _ hfi]
            exact this
        · intro j hj
          rcases List.mem_cons.mp hj with hje | hjf
          · subst hje
            refine ⟨by simpa using hlt, ?_⟩
            simp only [EntityDirectory.slotAt]
            rw [getD_set_self _ _ _ _ hlt]
          · obtain ⟨hjlt, hjdead⟩ := h5 j hjf
            have hji : j ≠ e.index := fun hji => hnotfree (hji ▸ hjf)
            refine ⟨by simpa using hjlt, ?_⟩
            simp only [EntityDirectory.slotAt]
            rw [getD_set_ne _ _ _ hji]
            simpa [EntityDirectory.slotAt] using hjdead
        · exact List.nodup_cons.mpr ⟨hnotfree, h6⟩
      · simp only [dirStep, EntityDirectory.destroy, ha, if_false]
        exact ⟨h1, h2, h3, h4, h5, h6⟩
  | create =>
      rcases hf : d.freelist with _ | ⟨i0, rest⟩
      · -- fresh slot at the end
        simp only [dirStep, EntityDirectory.create, hf]
        refine ⟨?_, ?_, ?_, ?_, ?_, List.nodup_nil⟩
        · intro f hfm
          rcases List.mem_append.mp hfm with hfo | hfx
          · have := h1 f hfo
            simp only [List.length_append, List.length_singleton]
            omega
          · rw [List.mem_singleton.mp hfx]
            simp
        · intro f hfm
          simp only [EntityDirectory.slotAt]
          rcases List.mem_append.mp hfm with hfo | hfx
          · rw [getD_append_lt _ _ _ _ (h1 f hfo)]
            exact h2 f hfo
          · rw [List.mem_singleton.mp hfx]
            rw [show (d.slots ++ [(⟨0, true⟩ : Slot)]).getD d.slots.length ⟨0, false⟩
                = ⟨0, true⟩ from getD_append_singleton _ _ _]
        · intro f hfm hfgen
          simp only [EntityDirectory.slotAt] at hfgen
          rcases List.mem_append.mp hfm with hfo | hfx
          · rw [getD_append_lt _ _ _ _ (h1 f hfo)] at hfgen
            have := h3 f hfo hfgen
            simp only [EntityDirectory.slotAt]
            rw [getD_append_lt _ _ _ _ (h1 f hfo)]
            exact this
          · rw [List.mem_singleton.mp hfx]
            simp only [EntityDirectory.slotAt]
            rw [show (d.slots ++ [(⟨0, true⟩ : Slot)]).getD d.slots.length ⟨0, false⟩
                = ⟨0, true⟩ from getD_append_singleton _ _ _]
        · rw [List.pairwise_append]
          refine ⟨h4, List.pairwise_singleton _ _, ?_⟩
          intro f hfo x hx
          rw [List.mem_singleton.mp hx]
          intro hfx
          have := h1 f hfo
          rw [hfx] at this
          simp at this
        · intro j hj
          simp at hj
      · -- reuse from the free list
        obtain ⟨hi0lt, hi0dead⟩ := h5 i0 (by rw [hf]; exact List.mem_cons_self _ _)
        have hnodup := h6
        rw [hf, List.nodup_cons] at hnodup
        simp only [dirStep, EntityDirectory.create, hf]
        refine ⟨?_, ?_, ?_, ?_, ?_, hnodup.2⟩
        · intro f hfm
          rcases List.mem_append.mp hfm with hfo | hfx
          · simpa using h1 f hfo
          · rw [List.mem_singleton.mp hfx]
            simpa using hi0lt
        · intro f hfm
          simp only [EntityDirectory.slotAt]
          rcases List.mem_append.mp hfm with hfo | hfx
          · by_cases hfi : f.index = i0
            · rw [hfi, getD_set_self _ _ _ _ hi0lt]
              have := h2 f hfo
              simp only [EntityDirectory.slotAt, hfi] at this
              exact this
            · rw [getD_set_ne _ _ _ hfi]
              exact h2 f hfo
          · rw [List.mem_singleton.mp hfx]
            simp only
            rw [getD_set_self _ _ _ _ hi0lt]
            exact Nat.le_refl _
        · intro f hfm hfgen
          simp only [EntityDirectory.slotAt] at hfgen
          rcases List.mem_append.mp hfm with hfo | hfx
          · by_cases hfi : f.index = i0
            · simp only [EntityDirectory.slotAt]
              rw [hfi, getD_set_self _ _ _ _ hi0lt]
            · rw [getD_set_ne _ _ _ hfi] at hfgen
              have := h3 f hfo hfgen
              simp only [EntityDirectory.slotAt]
              rw [getD_set_ne _ _ _ hfi]
              exact this
          · rw [List.mem_singleton.mp hfx]
            simp only [EntityDirectory.slotAt]
            rw [getD_set_self _ _ _ _ hi0lt]
        · rw [List.pairwise_append]
          refine ⟨h4, List.pairwise_singleton _ _, ?_⟩
          intro f hfo x hx
          rw [List.mem_singleton.mp hx]
          intro hfx
          by_cases hfi : f.index = i0
          · have hgle := h2 f hfo
            simp only [EntityDirectory.slotAt, hfi] at hgle
            have hfg : f.generation = (d.slots.getD i0 ⟨0, false⟩).generation := by
              have := congrArg Entity.generation hfx
              simpa [EntityDirectory.slotAt] using this
            have halive := h3 f hfo (by
              simpa [EntityDirectory.slotAt, hfi] using hfg)
            simp only [EntityDirectory.slotAt, hfi] at halive
            simp only [EntityDirectory.slotAt] at hi0dead
            rw [hi0dead] at halive
            simp at halive
          · have := congrArg Entity.index hfx
            simp at this
            exact hfi this
        · intro j hj
          have hjm : j ∈ d.freelist := by
            rw [hf]
            exact List.mem_cons_of_mem _ hj
          obtain ⟨hjlt, hjdead⟩ := h5 j hjm
          have hji : j ≠ i0 := fun hji => hnodup.1 (hji ▸ hj)
          refine ⟨by simpa using hjlt, ?_⟩
          simp only [EntityDirectory.slotAt]
          rw [getD_set_ne _ _ _ hji]
          simpa [EntityDirectory.slotAt] using hjdead

/-- Any run from the empty directory satisfies the directory invariant. -/
theorem DirInv_run (ops : List DirOp) : DirInv (dirRun ops) := by
  have hinit : DirInv (EntityDirectory.empty, []) := by
    refine ⟨?_, ?_, ?_, List.Pairwise.nil, ?_, List.nodup_nil⟩
    all_goals intro x hx
    all_goals simp [EntityDirectory.empty] at hx
  suffices hgen : ∀ s : EntityDirectory × List Entity, DirInv s →
      DirInv (ops.foldl dirStep s) from hgen _ hinit
  induction ops with
  | nil => exact fun s h => h
  | cons op rest ih =>
      intro s h
      exact ih _ (DirInv_step s.1 s.2 op h)

/-- C5: entities allocated by the directory at different times are pairwise
distinct as (index, generation) pairs — even across destroy/reuse of the same
slot — and a successful `destroy` strictly increments the slot's generation
before the index becomes allocatable again. -/
theorem issued_entities_distinct (ops : List DirOp) :
    (dirRun ops).2.Pairwise (· ≠ ·)
    ∧ (∀ (d : EntityDirectory) (e : Entity), d.is_alive e = true →
        ((d.destroy e).2.slotAt e.index).generation
          = (d.slotAt e.index).generation + 1) := by
  refine ⟨?_, ?_⟩
  · obtain ⟨_, _, _, h4, _, _⟩ := DirInv_run ops
    exact h4
  · intro d e ha
    obtain ⟨hlt, _, _⟩ := (EntityDirectory.is_alive_iff _ _).mp ha
    simp only [EntityDirectory.destroy, ha, if_true, EntityDirectory.slotAt]
    rw [getD_set_self _ _ _ _ hlt]

/-- C5 witness: a create/destroy/create run reissues slot 0 at a strictly
larger generation, so all issued handles are distinct; and a concrete destroy
increments the slot generation. -/
theorem issued_entities_distinct_witness :
    (dirRun [DirOp.create, DirOp.destroy ⟨0, 0⟩, DirOp.create]).2.Pairwise (· ≠ ·)
    ∧ (((⟨[⟨0, true⟩], []⟩ : EntityDirectory).destroy ⟨0, 0⟩).2.slotAt 0).generation
        = ((⟨[⟨0, true⟩], []⟩ : EntityDirectory).slotAt 0).generation + 1 :=
  ⟨(issued_entities_distinct [DirOp.create, DirOp.destroy ⟨0, 0⟩, DirOp.create]).1,
   (issued_entities_distinct []).2 ⟨[⟨0, true⟩], []⟩ ⟨0, 0⟩ (by decide)⟩

end Crayon
